import Mathlib

/-!
Verification of the byte-buffer view/ownership core of
`src/native/src/base/misc.hpp`: the `byte_view` / `byte_data` descriptor
types, the `byte_array` inline buffer, the `heap_data` owning buffer with
its swap-based move machinery, the Rust slice bridge, and the in-place
find-and-replace operation `byte_data::patch`.

Bytes are modelled as `Nat` (values 0..255 in practice; no arithmetic is
performed on them, only equality). Buffer contents are `List Nat`.
Pointers / heap allocations are modelled as `Option Nat`: `none` is the
null pointer, `some a` is an abstract address or allocation identifier.
-/

/-- Size computation of the private text constructor
`byte_view(std::string_view s, bool with_nul, bool check_nul)`
(src/native/src/base/misc.hpp:167-174). The view starts with
`_sz = s.length()`; if `with_nul` is set, the constructor returns early
(leaving `_sz = s.length()`) when `check_nul` is set and the byte read at
`s[s.length()]` — the byte in memory immediately after the text, passed
here as `nextByte` — is not the nul terminator; otherwise it increments
`_sz`. No error is ever signaled: the result is always a normal size. -/
def textViewSz (len nextByte : Nat) (with_nul check_nul : Bool) : Nat :=
  if with_nul then
    if check_nul && nextByte != 0 then len
    else len + 1
  else len

/-- Bytes seen through a view built by
`byte_view(const char *s, bool with_nul = true)`
(src/native/src/base/misc.hpp:145-146). A C string literal with
characters `chars` is laid out in memory as `chars ++ [0]`; the
constructor delegates to the private text constructor with
`check_nul = false` (so the terminator presence is not verified), and the
view covers the first `textViewSz chars.length 0 with_nul false` bytes. -/
def cstrViewBytes (chars : List Nat) (with_nul : Bool) : List Nat :=
  (chars ++ [0]).take (textViewSz chars.length 0 with_nul false)

/-- Size computation of `byte_data(std::string &s, bool with_nul = true)`
(src/native/src/base/misc.hpp:188-189): the length is
`with_nul ? s.length() + 1 : s.length()`, computed without reading any
byte of the string — the terminator is never verified. -/
def byteDataStrSz (len : Nat) (with_nul : Bool) : Nat :=
  if with_nul then len + 1 else len

/-- Byte-exact check that pattern `p` occurs at the very start of `l`
(`p` is a prefix of `l`). This is the single-position comparison used by
the scanning loops below. -/
def matchHere : List Nat → List Nat → Bool
  | [], _ => true
  | _ :: _, [] => false
  | a :: as, b :: bs => a == b && matchHere as bs

/-- Modelled from the spec: `byte_view::contains` (declared at
src/native/src/base/misc.hpp:158; its body is not under src/). Per
spec §4.2 it is true iff the needle occurs contiguously in the haystack,
byte-exact, and an empty needle is always contained. `occursIn needle hay`
scans every starting position of `hay`. -/
def occursIn (needle : List Nat) : List Nat → Bool
  | [] => matchHere needle []
  | b :: rest => matchHere needle (b :: rest) || occursIn needle rest

/-- Modelled from the spec: the scanning loop of `byte_data::patch`
(declared at src/native/src/base/misc.hpp:202; its body is not under
src/). Per spec §4.5: scan left to right from the current position; on a
match overwrite the matched span with `t`, record the starting offset,
and resume strictly after the replaced span; otherwise advance one byte.
`fuel` is a structural bound on the number of loop steps; callers pass
the buffer length, which always suffices for a nonempty pattern. -/
def patchAux (f t : List Nat) : Nat → List Nat → Nat → List Nat × List Nat
  | 0, buf, _ => (buf, [])
  | _ + 1, [], _ => ([], [])
  | fuel + 1, b :: rest, pos =>
    if matchHere f (b :: rest) then
      (t ++ (patchAux f t fuel ((b :: rest).drop f.length) (pos + f.length)).1,
        pos :: (patchAux f t fuel ((b :: rest).drop f.length) (pos + f.length)).2)
    else
      (b :: (patchAux f t fuel rest (pos + 1)).1,
        (patchAux f t fuel rest (pos + 1)).2)

/-- Modelled from the spec: `byte_data::patch(byte_view from, byte_view to)`
(declared at src/native/src/base/misc.hpp:202; its body is not under
src/). Per spec §4.5 it replaces every non-overlapping occurrence of `f`
by `t` in place and returns the ascending offsets of the replacements; an
empty `f` matches nowhere (zero replacements). The result is the pair
(new buffer contents, offset list). -/
def patch (buf f t : List Nat) : List Nat × List Nat :=
  match f with
  | [] => (buf, [])
  | _ :: _ => patchAux f t buf.length buf 0

/-- The `heap_data` owning buffer (src/native/src/base/misc.hpp:214-222):
a (reference, length) pair where the reference is the result of `malloc`
(`none` = null). -/
structure HeapData where
  buf : Option Nat
  sz : Nat
deriving DecidableEq

/-- From `heap_data::heap_data(size_t sz) : byte_data(malloc(sz), sz)`
(src/native/src/base/misc.hpp:217): the constructor stores `malloc`'s
result and the requested size unconditionally; `alloc` is the value
returned by `malloc` (`none` models a failed allocation returning null).
The constructor performs no check on `alloc`. -/
def heapDataMk (alloc : Option Nat) (sz : Nat) : HeapData := ⟨alloc, sz⟩

/-- From `clazz() = default` in `ALLOW_MOVE_ONLY`
(src/native/src/base/misc.hpp:17) together with the default `byte_view`
constructor (src/native/src/base/misc.hpp:134): a default-constructed
`heap_data` holds a null reference and zero length. -/
def heapDataDefault : HeapData := ⟨none, 0⟩

/-- Modelled from the spec: `byte_data::swap` (declared at
src/native/src/base/misc.hpp:201; its body is not under src/). Per
spec §9 the move machinery is "a custom swap-based move": `swap`
exchanges the two descriptors' (reference, length) pairs. The result is
(first object after, second object after). -/
def swapHD (a b : HeapData) : HeapData × HeapData := (b, a)

/-- From `clazz(clazz &&o) { swap(o); }` in `ALLOW_MOVE_ONLY`
(src/native/src/base/misc.hpp:19): move construction default-constructs
the new object (null, 0) and swaps it with the source. The result is
(new object, source after the move). -/
def moveCtorHD (o : HeapData) : HeapData × HeapData := swapHD heapDataDefault o

/-- From `clazz& operator=(clazz &&o) { swap(o); return *this; }` in
`ALLOW_MOVE_ONLY` (src/native/src/base/misc.hpp:20): move assignment
swaps the destination with the source. The result is
(destination after, source after). -/
def moveAssignHD (dest src : HeapData) : HeapData × HeapData := swapHD dest src

/-- From `~heap_data() { free(_buf); }` (src/native/src/base/misc.hpp:218):
destroying a `heap_data` releases the allocation it currently holds;
`free` on a null pointer releases nothing (`none`). -/
def freesHD (h : HeapData) : Option Nat := h.buf

/-- The `byte_array<N>` inline buffer (src/native/src/base/misc.hpp:205-210):
an embedded storage location (`ref`, the address of the member array
`arr`, fixed for the object's lifetime) and its byte contents. -/
structure ByteArrayModel where
  ref : Nat
  data : List Nat
deriving DecidableEq

/-- From `byte_array() : byte_data(arr, N), arr{0}`
(src/native/src/base/misc.hpp:207): construction points the descriptor at
the embedded array (address `r`) with length `N` and zero-initializes all
`N` bytes. -/
def mkByteArray (r N : Nat) : ByteArrayModel := ⟨r, List.replicate N 0⟩

/-- `patch` invoked on a `byte_array` (it is a `byte_data`): mutates the
embedded bytes in place; the storage reference is untouched (there is no
reallocation path for `byte_array`). -/
def patchBA (s : ByteArrayModel) (f t : List Nat) : ByteArrayModel × List Nat :=
  (⟨s.ref, (patch s.data f t).1⟩, (patch s.data f t).2)

/-- Rust `&[u8]`: the foreign immutable borrowed-slice representation
(`rust::Slice<const uint8_t>`), a (data pointer, length) pair. -/
structure RustSliceConst where
  data : Option Nat
  size : Nat
deriving DecidableEq

/-- Rust `&mut [u8]`: the foreign mutable borrowed-slice representation
(`rust::Slice<uint8_t>`), a (data pointer, length) pair. -/
structure RustSliceMut where
  data : Option Nat
  size : Nat
deriving DecidableEq

/-- The `byte_view` descriptor as a plain (reference, length) pair, as
used by the bridging constructors/operators. -/
structure ByteViewD where
  buf : Option Nat
  sz : Nat
deriving DecidableEq

/-- The `byte_data` descriptor as a plain (reference, length) pair, as
used by the bridging constructors/operators. -/
structure ByteDataD where
  buf : Option Nat
  sz : Nat
deriving DecidableEq

/-- From `byte_view(rust::Slice<const uint8_t> o) : byte_view(o.data(), o.size())`
(src/native/src/base/misc.hpp:141). -/
def byteViewOfSlice (s : RustSliceConst) : ByteViewD := ⟨s.data, s.size⟩

/-- From `operator rust::Slice<const uint8_t>() { return rust::Slice<const uint8_t>(_buf, _sz); }`
(src/native/src/base/misc.hpp:142). -/
def sliceOfByteView (v : ByteViewD) : RustSliceConst := ⟨v.buf, v.sz⟩

/-- From `byte_data(rust::Slice<uint8_t> o) : byte_data(o.data(), o.size())`
(src/native/src/base/misc.hpp:193). -/
def byteDataOfSlice (s : RustSliceMut) : ByteDataD := ⟨s.data, s.size⟩

/-- From `operator rust::Slice<uint8_t>() { return rust::Slice<uint8_t>(_buf, _sz); }`
(src/native/src/base/misc.hpp:194). -/
def sliceOfByteData (d : ByteDataD) : RustSliceMut := ⟨d.buf, d.sz⟩

/-! Helper lemmas about `matchHere`, `occursIn` and `patchAux`. -/

/-- A successful single-position match needs the pattern to fit. -/
theorem matchHere_length_le : ∀ p l : List Nat, matchHere p l = true → p.length ≤ l.length
  | [], _, _ => Nat.zero_le _
  | _ :: _, [], h => by simp [matchHere] at h
  | a :: as, b :: bs, h => by
    simp only [matchHere, Bool.and_eq_true, beq_iff_eq] at h
    exact Nat.succ_le_succ (matchHere_length_le as bs h.2)

/-- A successful single-position match decomposes the buffer as the
pattern followed by the rest. -/
theorem matchHere_eq_app : ∀ p l : List Nat, matchHere p l = true →
    p ++ l.drop p.length = l
  | [], _, _ => rfl
  | _ :: _, [], h => by simp [matchHere] at h
  | a :: as, b :: bs, h => by
    simp only [matchHere, Bool.and_eq_true, beq_iff_eq] at h
    simp only [List.length_cons, List.cons_append, List.drop_succ_cons]
    rw [h.1, matchHere_eq_app as bs h.2]

/-- A pattern always matches at the start of itself. -/
theorem matchHere_self : ∀ p s : List Nat, matchHere p (p ++ s) = true
  | [], _ => rfl
  | a :: as, s => by simp [matchHere, matchHere_self as s]

/-- The scanning loop never changes the buffer length when the two
patterns have equal length (regardless of fuel). -/
theorem patchAux_length (f t : List Nat) (h : f.length = t.length) :
    ∀ fuel buf pos, ((patchAux f t fuel buf pos).1).length = buf.length
  | 0, _, _ => rfl
  | _ + 1, [], _ => rfl
  | fuel + 1, b :: rest, pos => by
    by_cases hm : matchHere f (b :: rest) = true
    · have hle := matchHere_length_le f (b :: rest) hm
      simp only [List.length_cons] at hle
      have ih := patchAux_length f t h fuel ((b :: rest).drop f.length) (pos + f.length)
      simp only [patchAux, hm, if_true, List.length_append, List.length_cons] at ih ⊢
      simp only [List.length_drop, List.length_cons] at ih
      omega
    · have ih := patchAux_length f t h fuel rest (pos + 1)
      simp only [patchAux, hm, if_false, List.length_cons, Bool.false_eq_true] at ih ⊢
      omega

/-- Every offset reported by the scanning loop is at least the starting
position. -/
theorem patchAux_pos_le (f t : List Nat) :
    ∀ fuel buf pos x, x ∈ (patchAux f t fuel buf pos).2 → pos ≤ x
  | 0, _, _, _, h => by simp [patchAux] at h
  | _ + 1, [], _, _, h => by simp [patchAux] at h
  | fuel + 1, b :: rest, pos, x, h => by
    by_cases hm : matchHere f (b :: rest) = true
    · simp only [patchAux, hm, if_true, List.mem_cons] at h
      rcases h with h | h
      · omega
      · have := patchAux_pos_le f t fuel ((b :: rest).drop f.length) (pos + f.length) x h
        omega
    · simp only [patchAux, hm, if_false, Bool.false_eq_true] at h
      have := patchAux_pos_le f t fuel rest (pos + 1) x h
      omega

/-- Central round-trip lemma: run the scan forward (`f` → `t`) and then
backward (`t` → `f`) over the result, with the same fuel and starting
position. If the backward run reports exactly the same offsets as the
forward run, it restores the original buffer contents. The patterns are
nonempty and of equal length. -/
theorem patchAux_rev (f t : List Nat) (hf : 0 < f.length) (hlen : f.length = t.length) :
    ∀ fuel buf pos,
      (patchAux t f fuel (patchAux f t fuel buf pos).1 pos).2
          = (patchAux f t fuel buf pos).2 →
      (patchAux t f fuel (patchAux f t fuel buf pos).1 pos).1 = buf := by
  intro fuel
  induction fuel with
  | zero =>
    intro buf pos _
    simp [patchAux]
  | succ fuel ih =>
    intro buf pos h
    cases buf with
    | nil => simp [patchAux]
    | cons b rest =>
      by_cases hm : matchHere f (b :: rest) = true
      · have ht : t ≠ [] := by
          intro h0
          rw [h0, List.length_nil] at hlen
          omega
        have hfirst : patchAux f t (fuel + 1) (b :: rest) pos
            = (t ++ (patchAux f t fuel ((b :: rest).drop f.length) (pos + f.length)).1,
               pos :: (patchAux f t fuel ((b :: rest).drop f.length) (pos + f.length)).2) := by
          simp [patchAux, hm]
        have hsecond : ∀ X : List Nat, ∀ pos2 : Nat, patchAux t f (fuel + 1) (t ++ X) pos2
            = (f ++ (patchAux t f fuel X (pos2 + t.length)).1,
               pos2 :: (patchAux t f fuel X (pos2 + t.length)).2) := by
          intro X pos2
          cases t with
          | nil => exact absurd rfl ht
          | cons t0 ts =>
            have hms : matchHere (t0 :: ts) (t0 :: (ts ++ X)) = true := by
              simpa [List.cons_append] using matchHere_self (t0 :: ts) X
            have hdrop : (ts ++ X).drop ts.length = X := List.drop_left ts X
            simp [patchAux, hms, hdrop, List.cons_append]
        rw [hfirst] at h ⊢
        dsimp only at h ⊢
        rw [hsecond] at h ⊢
        dsimp only at h ⊢
        simp only [List.cons.injEq, true_and] at h
        rw [← hlen] at h ⊢
        have hres := ih ((b :: rest).drop f.length) (pos + f.length) h
        rw [hres]
        exact matchHere_eq_app f (b :: rest) hm
      · have hfirst : patchAux f t (fuel + 1) (b :: rest) pos
            = (b :: (patchAux f t fuel rest (pos + 1)).1,
               (patchAux f t fuel rest (pos + 1)).2) := by
          simp [patchAux, hm]
        rw [hfirst] at h ⊢
        dsimp only at h ⊢
        by_cases hm2 : matchHere t (b :: (patchAux f t fuel rest (pos + 1)).1) = true
        · have hsecond : patchAux t f (fuel + 1)
              (b :: (patchAux f t fuel rest (pos + 1)).1) pos
              = (f ++ (patchAux t f fuel
                    ((b :: (patchAux f t fuel rest (pos + 1)).1).drop t.length)
                    (pos + t.length)).1,
                 pos :: (patchAux t f fuel
                    ((b :: (patchAux f t fuel rest (pos + 1)).1).drop t.length)
                    (pos + t.length)).2) := by
            simp [patchAux, hm2]
          rw [hsecond] at h
          dsimp only at h
          have hmem : pos ∈ (patchAux f t fuel rest (pos + 1)).2 := by
            rw [← h]
            exact List.mem_cons_self _ _
          have := patchAux_pos_le f t fuel rest (pos + 1) pos hmem
          omega
        · have hsecond : patchAux t f (fuel + 1)
              (b :: (patchAux f t fuel rest (pos + 1)).1) pos
              = (b :: (patchAux t f fuel (patchAux f t fuel rest (pos + 1)).1 (pos + 1)).1,
                 (patchAux t f fuel (patchAux f t fuel rest (pos + 1)).1 (pos + 1)).2) := by
            simp [patchAux, hm2]
          rw [hsecond] at h ⊢
          dsimp only at h ⊢
          rw [ih rest (pos + 1) h]

/-- `patch` never changes the buffer length when the two patterns have
equal length: there is no reallocation, the rewrite is purely in place. -/
theorem patch_length (f t : List Nat) (h : f.length = t.length) (buf : List Nat) :
    ((patch buf f t).1).length = buf.length := by
  cases f with
  | nil => rfl
  | cons f0 fs => exact patchAux_length (f0 :: fs) t h buf.length buf 0

/-- An empty needle occurs in every haystack. -/
theorem occursIn_nil_needle : ∀ hay : List Nat, occursIn [] hay = true
  | [] => rfl
  | _ :: rest => by simp [occursIn, matchHere]

/-- The one-byte needle `[0]` occurs in a haystack exactly when the
haystack holds a nul byte. -/
theorem occursIn_single_zero : ∀ hay : List Nat, (occursIn [0] hay = true ↔ 0 ∈ hay)
  | [] => by simp [occursIn, matchHere]
  | b :: rest => by
    simp [occursIn, matchHere, occursIn_single_zero rest]

/-! Claim theorems. -/

/-- Claim C1: patching the four-byte buffer "aaaa" with from="aa",
to="bb" yields "bbbb" and exactly the offsets [0, 2]: after a
replacement the scan resumes strictly after the replaced span, so no
match overlaps bytes just written. Bytes: 'a' = 97, 'b' = 98. -/
theorem patch_aaaa :
    patch [97, 97, 97, 97] [97, 97] [98, 98] = ([98, 98, 98, 98], [0, 2]) := by
  decide

/-- Claim C6: an empty `from` pattern performs zero replacements: the
buffer is returned unchanged and the offset list is empty. -/
theorem patch_empty_pat (buf t : List Nat) : patch buf [] t = (buf, []) := rfl

/-- Claim C2: building a view from text with the terminator-counting
option enabled on the verifying path (`with_nul = true`,
`check_nul = true`) counts one extra byte exactly when the byte
immediately after the text is the nul terminator; otherwise the
constructor returns normally with the text length alone — no terminator
counted and no error signaled (the function is total into `Nat`). -/
theorem byte_view_text_nul_check (len nextByte : Nat) :
    textViewSz len nextByte true true = (if nextByte = 0 then len + 1 else len) := by
  by_cases h : nextByte = 0 <;> simp [textViewSz, h]

/-- Claim C10: building a mutable `byte_data` descriptor from a
`std::string` with the default terminator option always reports length
`s.length() + 1`, reading no memory at all — unlike the read-only text
path, which on its verifying configuration refuses to count the
terminator when the byte after the text (here the non-nul byte 1) is not
nul. -/
theorem byte_data_string_sz (len : Nat) :
    byteDataStrSz len true = len + 1 ∧ textViewSz len 1 true true = len :=
  ⟨rfl, rfl⟩

/-- Claim C4, counterexample: with a failed allocation (`malloc`
returning null, modelled as `none`), `heap_data` construction is not
fatal: it completes normally and yields a value holding the null
reference and the requested length 4 — refuting "construction never
completes ... when the underlying allocation fails". -/
theorem heap_alloc_fail_cex :
    heapDataMk none 4 = ⟨none, 4⟩ ∧ (heapDataMk none 4).buf = none ∧
      (heapDataMk none 4).sz = 4 := by
  decide

/-- Claim C4 (amended): `heap_data` construction never checks the
allocation result: for every `malloc` outcome (including failure) it
completes with exactly that reference and the requested length; no
recoverable error value is returned (the result type carries no error
case) and no process termination happens in this layer. -/
theorem heap_alloc_spec (alloc : Option Nat) (sz : Nat) :
    (heapDataMk alloc sz).buf = alloc ∧ (heapDataMk alloc sz).sz = sz :=
  ⟨rfl, rfl⟩

/-- Claim C5, counterexample: move-assigning an owning buffer holding
allocation 2 into a destination holding allocation 1 leaves the
moved-from source holding allocation 1 (the destination's previous
storage), not empty, and destroying the source releases allocation 1 —
refuting "moving ... leaves the source holding no storage ... so
destroying the moved-from source releases nothing" for move assignment. -/
theorem heap_move_cex :
    (moveAssignHD (heapDataMk (some 1) 4) (heapDataMk (some 2) 8)).2 ≠ heapDataDefault ∧
      freesHD (moveAssignHD (heapDataMk (some 1) 4) (heapDataMk (some 2) 8)).2 = some 1 := by
  decide

/-- Claim C5 (amended): move construction transfers the (reference,
length) pair and leaves the source empty (null, 0), so destroying the
moved-from source releases nothing; move assignment instead swaps the
two pairs, so the source takes over the destination's previous pair and
releases that allocation on destruction. In both cases the collection of
allocations held by the two objects is preserved, so across the move
each backing allocation is still released exactly once. -/
theorem heap_move_spec (d s o : HeapData) :
    moveCtorHD o = (o, heapDataDefault) ∧
      freesHD (moveCtorHD o).2 = none ∧
      moveAssignHD d s = (s, d) ∧
      List.Perm [freesHD (moveAssignHD d s).1, freesHD (moveAssignHD d s).2]
        [freesHD d, freesHD s] :=
  ⟨rfl, rfl, rfl, List.Perm.swap (freesHD d) (freesHD s) []⟩

/-- Claim C3, counterexample: take the two-byte buffer "ab" (97, 98),
from = "aa", to = "ab" (equal lengths). The forward patch finds no
occurrence of "aa" and returns ("ab", []); the reverse patch "ab" → "aa"
then matches at offset 0 and returns ("aa", [0]). The original bytes are
not restored and the two offset sequences differ, refuting the
universally quantified round-trip claim. -/
theorem patch_roundtrip_cex :
    ¬ ((patch (patch [97, 98] [97, 97] [97, 98]).1 [97, 98] [97, 97]).1 = [97, 98] ∧
        (patch (patch [97, 98] [97, 97] [97, 98]).1 [97, 98] [97, 97]).2
          = (patch [97, 98] [97, 97] [97, 98]).2) := by
  decide

/-- Claim C3 (amended): patching `f` → `t` and then `t` → `f` (equal
lengths) restores the original byte contents whenever the second patch
reports the same offset sequence as the first (i.e. the reverse scan's
matches are exactly the replaced spans). Without that condition the
round trip can fail: `t` may already occur in the buffer, or a
replacement may create a new occurrence of `t`, and then the reverse
patch rewrites extra spans (see the counterexample). -/
theorem patch_roundtrip (buf f t : List Nat) (hlen : f.length = t.length)
    (hoff : (patch (patch buf f t).1 t f).2 = (patch buf f t).2) :
    (patch (patch buf f t).1 t f).1 = buf := by
  cases f with
  | nil =>
    have ht : t = [] := by
      simpa using hlen.symm
    subst ht
    simp [patch]
  | cons f0 fs =>
    cases t with
    | nil => simp at hlen
    | cons t0 ts =>
      have hlen1 : ((patchAux (f0 :: fs) (t0 :: ts) buf.length buf 0).1).length
          = buf.length :=
        patchAux_length (f0 :: fs) (t0 :: ts) hlen buf.length buf 0
      simp only [patch] at hoff ⊢
      rw [hlen1] at hoff ⊢
      exact patchAux_rev (f0 :: fs) (t0 :: ts) (by simp) hlen buf.length buf 0 hoff

/-- Claim C3, witness: the amended round trip evaluated at buffer
"aaaa", from = "aa", to = "bb": both patches report offsets [0, 2] and
the reverse patch restores "aaaa". -/
theorem patch_roundtrip_witness :
    ([97, 97] : List Nat).length = ([98, 98] : List Nat).length ∧
      (patch (patch [97, 97, 97, 97] [97, 97] [98, 98]).1 [98, 98] [97, 97]).2
          = (patch [97, 97, 97, 97] [97, 97] [98, 98]).2 ∧
      (patch (patch [97, 97, 97, 97] [97, 97] [98, 98]).1 [98, 98] [97, 97]).1
          = [97, 97, 97, 97] :=
  ⟨by decide, by decide,
    patch_roundtrip [97, 97, 97, 97] [97, 97] [98, 98] (by decide) (by decide)⟩

/-- Claim C7: a freshly constructed inline buffer of capacity `N`
reports length exactly `N`, all `N` embedded bytes are zero-initialized,
and the storage reference is never changed: the only mutating operation
(`patch`, with the equal-length precondition of spec §4.5) keeps the
reference and the length intact — there is no reallocation. -/
theorem byte_array_spec (r N : Nat) (f t : List Nat) (h : f.length = t.length) :
    (mkByteArray r N).data = List.replicate N 0 ∧
      (mkByteArray r N).data.length = N ∧
      (patchBA (mkByteArray r N) f t).1.ref = r ∧
      (patchBA (mkByteArray r N) f t).1.data.length = N := by
  refine ⟨rfl, by simp [mkByteArray], rfl, ?_⟩
  simp [patchBA, mkByteArray, patch_length f t h]

/-- Claim C7, witness: the inline-buffer properties evaluated at
capacity 3 with reference 5 and the equal-length patterns [1], [2]. -/
theorem byte_array_spec_witness :
    ([1] : List Nat).length = ([2] : List Nat).length ∧
      ((mkByteArray 5 3).data = List.replicate 3 0 ∧
        (mkByteArray 5 3).data.length = 3 ∧
        (patchBA (mkByteArray 5 3) [1] [2]).1.ref = 5 ∧
        (patchBA (mkByteArray 5 3) [1] [2]).1.data.length = 3) :=
  ⟨by decide, byte_array_spec 5 3 [1] [2] (by decide)⟩

/-- Claim C9, counterexample: the needle built from the empty text
string with the default options (`byte_view("")`, `with_nul = true`,
`check_nul = false`) is not empty — it covers one byte, the terminator —
so `contains` on the zero-length view returns false, refuting
"contains(v, \"\") returns true ... including when v itself has zero
length". -/
theorem contains_empty_cstr_cex :
    cstrViewBytes [] true = [0] ∧ occursIn (cstrViewBytes [] true) [] = false := by
  decide

/-- Claim C9 (amended): a genuinely empty needle (the view built from
"" with the terminator option disabled) is contained in every haystack,
including the zero-length one; but the needle built from "" with the
default option counts the terminator, so it is the one-byte needle [0]
and `contains(v, "")` holds exactly when v holds a nul byte — false for
zero-length v. -/
theorem contains_empty_needle (hay : List Nat) :
    occursIn (cstrViewBytes [] false) hay = true ∧
      (occursIn (cstrViewBytes [] true) hay = true ↔ 0 ∈ hay) := by
  have h1 : cstrViewBytes [] false = [] := rfl
  have h2 : cstrViewBytes [] true = [0] := rfl
  rw [h1, h2]
  exact ⟨occursIn_nil_needle hay, occursIn_single_zero hay⟩

/-- Claim C8: the slice bridge is a lossless round-trip. A `byte_view`
converted to the foreign immutable slice and back keeps the identical
(reference, length) pair, and so does a foreign slice through
`byte_view`; likewise for `byte_data` with the mutable slice. The
conversions repackage the descriptor fields only: no bytes are copied
and no validation is performed. -/
theorem slice_bridge_roundtrip (v : ByteViewD) (s : RustSliceConst)
    (d : ByteDataD) (m : RustSliceMut) :
    byteViewOfSlice (sliceOfByteView v) = v ∧
      sliceOfByteView (byteViewOfSlice s) = s ∧
      byteDataOfSlice (sliceOfByteData d) = d ∧
      sliceOfByteData (byteDataOfSlice m) = m :=
  ⟨rfl, rfl, rfl, rfl⟩
